import Mathlib

/-!
Verification of the `drm-fourcc` build-time generator (`build.rs`).

The generator runs a C preprocessor (`clang -E -dM`) on an include of
`drm/drm_fourcc.h`, scans the captured standard output line by line with the
regular expression `^\s*#define (?P<full>DRM_FORMAT_(?P<short>[A-Z0-9]+)) `
after dropping any line containing `DRM_FORMAT_RESERVED` or `INVALID`, and
from the resulting list of `(full, short)` name pairs emits

  * a C wrapper file binding `uint32_t DRM_FOURCC_<short> = <full>;` for each
    pair, and
  * a Rust enum `DrmFormat` with one variant per pair (first character kept,
    rest ASCII-lowercased) whose discriminant references the corresponding
    constant, plus a reverse lookup `from_u32` implemented as a `match` whose
    arms are the constants in emission order.

Strings are modelled as `List Char`; the numeric value a macro expands to is
modelled by an environment `env : List Char → Nat` mapping a macro's full name
to its value (the generator itself never parses numeric values: the C compiler
resolves the reference in the emitted wrapper).
-/

set_option maxRecDepth 10000

namespace DrmFourcc

/-- The character class `\s` of the Rust `regex` crate (Unicode whitespace),
as used by `^\s*` in the pattern at build.rs line 52. -/
def isWsChar (c : Char) : Bool :=
  c.toNat = 0x20 || (0x9 ≤ c.toNat && c.toNat ≤ 0xD) ||
  c.toNat = 0x85 || c.toNat = 0xA0 || c.toNat = 0x1680 ||
  (0x2000 ≤ c.toNat && c.toNat ≤ 0x200A) ||
  c.toNat = 0x2028 || c.toNat = 0x2029 || c.toNat = 0x202F ||
  c.toNat = 0x205F || c.toNat = 0x3000

/-- The character class `[A-Z0-9]` of the pattern at build.rs line 52. -/
def shortChar (c : Char) : Bool :=
  (65 ≤ c.toNat && c.toNat ≤ 90) || (48 ≤ c.toNat && c.toNat ≤ 57)

/-- The literal `#define ` part of the pattern (build.rs line 52). -/
def defineTok : List Char := "#define ".data

/-- The namespace part `DRM_FORMAT_` of the pattern (build.rs line 52). -/
def nsTok : List Char := "DRM_FORMAT_".data

/-- `re.captures(line)` for the anchored regex
`^\s*#define (?P<full>DRM_FORMAT_(?P<short>[A-Z0-9]+)) ` (build.rs lines
52, 60-65): returns the `(full, short)` capture pair when the line matches.
Because the pattern is anchored and every literal follows a maximal run
(`\s*` is followed by `#`, which is not whitespace; `[A-Z0-9]+` is followed
by a space, which is not in the class), the backtracking regex is equivalent
to this greedy scan. -/
def reMatch (l : List Char) : Option (List Char × List Char) :=
  if defineTok.isPrefixOf (l.dropWhile isWsChar) then
    if nsTok.isPrefixOf ((l.dropWhile isWsChar).drop defineTok.length) then
      if ((((l.dropWhile isWsChar).drop defineTok.length).drop nsTok.length).takeWhile shortChar).isEmpty then
        none
      else
        if ((((l.dropWhile isWsChar).drop defineTok.length).drop nsTok.length).dropWhile shortChar).head? = some ' ' then
          some (nsTok ++ (((l.dropWhile isWsChar).drop defineTok.length).drop nsTok.length).takeWhile shortChar,
                (((l.dropWhile isWsChar).drop defineTok.length).drop nsTok.length).takeWhile shortChar)
        else none
    else none
  else none

/-- Rust `str::contains` with a string pattern: substring test. -/
def containsSub (pat l : List Char) : Bool :=
  l.tails.any (fun t => pat.isPrefixOf t)

/-- One step of the `filter_map` closure of build.rs lines 55-66: a line
containing `DRM_FORMAT_RESERVED` or `INVALID` is dropped before the regex is
tried; otherwise the capture pair (if any) is produced. -/
def lineEntry (l : List Char) : Option (List Char × List Char) :=
  if containsSub "DRM_FORMAT_RESERVED".data l || containsSub "INVALID".data l then none
  else reMatch l

/-- The `filter_map` over all lines (build.rs lines 53-67), at the level of an
already-split line list. -/
def entriesOf (lines : List (List Char)) : List (List Char × List Char) :=
  lines.filterMap lineEntry

/-- Helper for `splitLines`: the accumulated line is kept in reverse; when a
line is terminated by `\n`, a single trailing `\r` is removed (Rust
`str::lines` treats `\r\n` as a line ending). -/
def dropCRrev (revCur : List Char) : List Char :=
  match revCur with
  | '\r' :: t => t
  | t => t

/-- Recursive worker for `splitLines`. -/
def splitLinesAux (cur : List Char) : List Char → List (List Char)
  | [] => if cur.isEmpty then [] else [cur.reverse]
  | c :: rest =>
      if c = '\n' then (dropCRrev cur).reverse :: splitLinesAux [] rest
      else splitLinesAux (c :: cur) rest

/-- Rust `str::lines` (build.rs line 54): split at `\n` (also consuming an
immediately preceding `\r`); a final line ending produces no trailing empty
line. -/
def splitLines (s : List Char) : List (List Char) :=
  splitLinesAux [] s

/-- The complete parse `stdout.lines().filter_map(...).collect()` of build.rs
lines 53-67: the ordered list of `(full, short)` name pairs. -/
def parseNames (stdout : List Char) : List (List Char × List Char) :=
  entriesOf (splitLines stdout)

/-- `const_prefix = "DRM_FOURCC_"` (build.rs line 76). -/
def constTok : List Char := "DRM_FOURCC_".data

/-- The constant table (build.rs lines 78-80): for each `(full, short)` pair
one binding, whose name is `DRM_FOURCC_<short>` and whose value is a
reference to the original macro `full`. -/
def constBindings (names : List (List Char × List Char)) : List (List Char × List Char) :=
  names.map (fun p => (constTok ++ p.2, p.1))

/-- Rust `char::to_ascii_lowercase`, applied characterwise by
`str::to_ascii_lowercase` (build.rs line 141). -/
def to_ascii_lowercase (c : Char) : Char :=
  if 65 ≤ c.toNat ∧ c.toNat ≤ 90 then Char.ofNat (c.toNat + 32) else c

/-- `enum_member_case` (build.rs lines 139-142): `s.split_at(1)` keeps the
first character and ASCII-lowercases the rest.  `split_at(1)` panics when the
string is empty (index past the end) or when its first character occupies
more than one UTF-8 byte (index 1 is not a character boundary, i.e. the first
character's code point is at least 128); the panic is modelled as `none`. -/
def enum_member_case (s : List Char) : Option (List Char) :=
  match s with
  | [] => none
  | c :: rest =>
      if c.toNat < 128 then some (c :: rest.map to_ascii_lowercase) else none

/-- The enum member list (build.rs lines 106-114): for each pair, the variant
name `enum_member_case(short)` together with the discriminant expression text
`consts::DRM_FOURCC_<short>`.  The map runs in order; a panic of
`enum_member_case` propagates as `none`. -/
def membersOf : List (List Char × List Char) → Option (List (List Char × List Char))
  | [] => some []
  | p :: t =>
      match enum_member_case p.2 with
      | none => none
      | some m =>
          match membersOf t with
          | none => none
          | some ms => some ((m, "consts::".data ++ constTok ++ p.2) :: ms)

/-- The semantic view of the emitted enum under a macro environment `env`:
each variant's discriminant is the numeric value of the constant
`DRM_FOURCC_<short>`, which the wrapper binds to the value of the original
macro `full`, i.e. `env full`. -/
def enumVariantsOf (env : List Char → Nat) : List (List Char × List Char) →
    Option (List (List Char × Nat))
  | [] => some []
  | p :: t =>
      match enum_member_case p.2 with
      | none => none
      | some m =>
          match enumVariantsOf env t with
          | none => none
          | some vs => some ((m, env p.1) :: vs)

/-- The semantics of the emitted `DrmFormat::from_u32` (build.rs lines
122-131): a `match` over the discriminant constants in emission order, so the
first arm whose value equals `n` wins, and the final arm yields `None`. -/
def from_u32 (vs : List (List Char × Nat)) (n : Nat) : Option (List Char × Nat) :=
  vs.find? (fun v => v.2 == n)

/-- The text written for one constant binding,
`writeln!(wrapper, "uint32_t \x7b\x7d\x7b\x7d = \x7b\x7d;\n", const_prefix, short, full)`
(build.rs line 79). -/
def wrapperDecl (p : List Char × List Char) : List Char :=
  "uint32_t ".data ++ constTok ++ p.2 ++ " = ".data ++ p.1 ++ ";\n\n".data

/-- The full wrapper file text (build.rs lines 71-82). -/
def wrapperText (names : List (List Char × List Char)) : List Char :=
  "#include <stdint.h>\n".data ++ "#include <drm/drm_fourcc.h>\n".data ++
  (names.map wrapperDecl).flatten

/-- One enum member line `\x7bmember\x7d = \x7bvalue\x7d,` plus the newline of
`writeln!` (build.rs line 117). -/
def enumMemberLine (m : List Char × List Char) : List Char :=
  m.1 ++ " = ".data ++ m.2 ++ ",\n".data

/-- One `from_u32` match arm `\x7bvalue\x7d => Some(Self::\x7bmember\x7d),`
plus the newline of `writeln!` (build.rs line 127). -/
def enumArmLine (m : List Char × List Char) : List Char :=
  m.2 ++ " => Some(Self::".data ++ m.1 ++ "),\n".data

/-- The full `as_enum.rs` text (build.rs lines 97-131), before the external
`rustfmt` pass. -/
def enumText (ms : List (List Char × List Char)) : List Char :=
  "// Automatically generated by build.rs\n".data ++
  "use crate::consts;".data ++
  "#[derive(Copy, Clone, Eq, PartialEq)]".data ++
  "#[cfg_attr(feature = \"serde\", derive(serde::Serialize, serde::Deserialize))]".data ++
  "#[repr(u32)]".data ++
  "pub enum DrmFormat \x7b\n".data ++
  (ms.map enumMemberLine).flatten ++
  "\x7d\n".data ++
  "impl DrmFormat \x7b\n".data ++
  "pub(crate) fn from_u32(n: u32) -> Option<Self> \x7b\n".data ++
  "match n \x7b\n".data ++
  (ms.map enumArmLine).flatten ++
  "_ => None\n".data ++
  "\x7d\x7d\x7d".data

/-- The outcome of `cmd.wait_with_output()` (build.rs line 44), with the
captured standard output already decoded to text. -/
structure ProcOutput where
  success : Bool
  stdout : List Char
deriving DecidableEq

/-- The fatal failures of the generator that depend on the preprocessor
output: `preprocessError` models the abort at build.rs lines 46-48 (the
panic message carries the captured output); `memberCaseFailure` models a
panic of `enum_member_case` (build.rs line 140). -/
inductive GenError where
  | preprocessError (output : List Char)
  | memberCaseFailure
deriving DecidableEq

/-- The two generated artifacts: the wrapper (from which `src/consts.rs` is
produced) and the `src/as_enum.rs` text. -/
structure Artifacts where
  wrapper : List Char
  asEnum : List Char
deriving DecidableEq

/-- The generator pipeline downstream of the subprocess (build.rs lines
44-131): the exit status is inspected first, and on failure generation aborts
before anything is parsed or written; otherwise both artifacts are produced
from the single parsed name list. -/
def generate (res : ProcOutput) : Except GenError Artifacts :=
  if res.success then
    match membersOf (parseNames res.stdout) with
    | some ms => Except.ok ⟨wrapperText (parseNames res.stdout), enumText ms⟩
    | none => Except.error GenError.memberCaseFailure
  else Except.error (GenError.preprocessError res.stdout)

/-- A short name as guaranteed by the definition pattern: a non-empty run of
uppercase letters and digits. -/
def isShortName (s : List Char) : Bool :=
  !s.isEmpty && s.all shortChar

/-- Modelled from the spec claim's words (claim C3 as stated): a line yields
the pair `(full, short)` when, after optional leading whitespace, it is a
`#define` of a name consisting of the fixed namespace prefix followed by a
non-empty run of uppercase letters and digits, immediately followed by
WHITESPACE; `full` is the whole defined name and `short` the part after the
namespace. -/
def SpecYieldsWs (l full sh : List Char) : Prop :=
  ∃ ws rest c, (∀ x ∈ ws, isWsChar x = true) ∧
    l = ws ++ defineTok ++ nsTok ++ sh ++ rest ∧
    sh ≠ [] ∧ (∀ x ∈ sh, shortChar x = true) ∧
    rest.head? = some c ∧ isWsChar c = true ∧
    full = nsTok ++ sh

/-- The amended form of claim C3's matching condition: as `SpecYieldsWs`, but
the defined name must be immediately followed by a SPACE character (`' '`),
which is what the regex's trailing literal actually requires. -/
def SpecYieldsSp (l full sh : List Char) : Prop :=
  ∃ ws rest, (∀ x ∈ ws, isWsChar x = true) ∧
    l = ws ++ defineTok ++ nsTok ++ sh ++ rest ∧
    sh ≠ [] ∧ (∀ x ∈ sh, shortChar x = true) ∧
    rest.head? = some ' ' ∧
    full = nsTok ++ sh

/-- The end-to-end scenario input exactly as the claim states it (namespace
`NS_`). -/
def scenarioClaimed : List Char :=
  "#define NS_FOO 0x1\n#define NS_BAR 0x2\n#define OTHER_THING 5".data

/-- The end-to-end scenario input with the generator's actual namespace
`DRM_FORMAT_` substituted for the claim's placeholder `NS_`. -/
def scenarioAmended : List Char :=
  "#define DRM_FORMAT_FOO 0x1\n#define DRM_FORMAT_BAR 0x2\n#define OTHER_THING 5".data

/-- A macro environment consistent with the amended scenario header: `FOO`
expands to 1, `BAR` to 2. -/
def scenarioEnv : List Char → Nat :=
  fun full =>
    if full = "DRM_FORMAT_FOO".data then 1
    else if full = "DRM_FORMAT_BAR".data then 2
    else 0

/-! ## Helper lemmas -/

theorem isPrefixOf_iff (p l : List Char) : p.isPrefixOf l = true ↔ ∃ t, l = p ++ t := by
  induction p generalizing l with
  | nil => simp [List.isPrefixOf]
  | cons a p ih =>
    cases l with
    | nil => simp [List.isPrefixOf]
    | cons b l =>
      simp only [List.isPrefixOf, Bool.and_eq_true, beq_iff_eq, ih, List.cons_append,
        List.cons.injEq]
      constructor
      · rintro ⟨hab, t, ht⟩
        exact ⟨t, hab.symm, ht⟩
      · rintro ⟨t, hba, ht⟩
        exact ⟨hba.symm, t, ht⟩

theorem dropWhile_append_all {p : Char → Bool} {a : List Char} (b : List Char)
    (h : ∀ x ∈ a, p x = true) : (a ++ b).dropWhile p = b.dropWhile p := by
  induction a with
  | nil => rfl
  | cons c t ih =>
    have hc : p c = true := h c (by simp)
    simp only [List.cons_append, List.dropWhile_cons, hc, if_true]
    exact ih (fun x hx => h x (by simp [hx]))

theorem takeWhile_append_all {p : Char → Bool} {a : List Char} (b : List Char)
    (h : ∀ x ∈ a, p x = true) : (a ++ b).takeWhile p = a ++ b.takeWhile p := by
  induction a with
  | nil => rfl
  | cons c t ih =>
    have hc : p c = true := h c (by simp)
    simp only [List.cons_append, List.takeWhile_cons, hc, if_true, List.cons.injEq,
      true_and]
    exact ih (fun x hx => h x (by simp [hx]))

theorem dropWhile_head_not {p : Char → Bool} {l : List Char} {c : Char}
    (hh : l.head? = some c) (hc : p c = false) : l.dropWhile p = l := by
  cases l with
  | nil => rfl
  | cons a t =>
    have : a = c := by simpa using hh
    subst this
    simp [List.dropWhile_cons, hc]

theorem takeWhile_head_not {p : Char → Bool} {l : List Char} {c : Char}
    (hh : l.head? = some c) (hc : p c = false) : l.takeWhile p = [] := by
  cases l with
  | nil => rfl
  | cons a t =>
    have : a = c := by simpa using hh
    subst this
    simp [List.takeWhile_cons, hc]

theorem mem_takeWhile {p : Char → Bool} {l : List Char} :
    ∀ x ∈ l.takeWhile p, p x = true := by
  induction l with
  | nil => simp
  | cons a t ih =>
    intro x hx
    by_cases ha : p a = true
    · rw [List.takeWhile_cons, if_pos ha] at hx
      rcases List.mem_cons.mp hx with h | h
      · exact h ▸ ha
      · exact ih x h
    · rw [List.takeWhile_cons, if_neg ha] at hx
      exact absurd hx (List.not_mem_nil x)

theorem shortChar_lt_128 (c : Char) (h : shortChar c = true) : c.toNat < 128 := by
  simp only [shortChar, Bool.or_eq_true, Bool.and_eq_true, decide_eq_true_eq] at h
  omega

theorem to_ascii_eq_toLower (c : Char) : to_ascii_lowercase c = Char.toLower c := rfl

/-- The regex-capture step characterized by the (space-corrected) spec
condition: forward direction. -/
theorem reMatch_forward {l full sh : List Char} (h : reMatch l = some (full, sh)) :
    SpecYieldsSp l full sh := by
  unfold reMatch at h
  split_ifs at h with h1 h2 h3 h4
  obtain ⟨t1, ht1⟩ := (isPrefixOf_iff _ _).mp h1
  have hd1 : (l.dropWhile isWsChar).drop defineTok.length = t1 := by
    rw [ht1]; exact List.drop_left _ _
  rw [hd1] at h2 h3 h4 h
  obtain ⟨t2, ht2⟩ := (isPrefixOf_iff _ _).mp h2
  have hd2 : t1.drop nsTok.length = t2 := by
    rw [ht2]; exact List.drop_left _ _
  rw [hd2] at h3 h4 h
  obtain ⟨hfull, hsh⟩ : nsTok ++ t2.takeWhile shortChar = full ∧ t2.takeWhile shortChar = sh := by
    simpa using h
  subst hsh
  subst hfull
  refine ⟨l.takeWhile isWsChar, t2.dropWhile shortChar, mem_takeWhile, ?_, ?_,
    mem_takeWhile, h4, rfl⟩
  · conv_lhs => rw [← List.takeWhile_append_dropWhile isWsChar l]
    rw [ht1, ht2]
    conv_lhs => rw [← List.takeWhile_append_dropWhile shortChar t2]
    simp [List.append_assoc]
  · intro hcon
    exact h3 (by simp [hcon])

/-- The regex-capture step characterized by the (space-corrected) spec
condition: backward direction. -/
theorem reMatch_backward {l full sh : List Char} (h : SpecYieldsSp l full sh) :
    reMatch l = some (full, sh) := by
  obtain ⟨ws, rest, hws, hl, hshne, hshall, hrh, hfull⟩ := h
  have h0 : l.dropWhile isWsChar = defineTok ++ (nsTok ++ (sh ++ rest)) := by
    rw [hl]
    rw [show ws ++ defineTok ++ nsTok ++ sh ++ rest =
        ws ++ (defineTok ++ (nsTok ++ (sh ++ rest))) from by simp [List.append_assoc]]
    rw [dropWhile_append_all _ hws]
    exact dropWhile_head_not rfl (by decide)
  have hp1 : defineTok.isPrefixOf (l.dropWhile isWsChar) = true := by
    rw [h0]; exact (isPrefixOf_iff _ _).mpr ⟨_, rfl⟩
  have h1 : (l.dropWhile isWsChar).drop defineTok.length = nsTok ++ (sh ++ rest) := by
    rw [h0]; exact List.drop_left _ _
  have hp2 : nsTok.isPrefixOf ((l.dropWhile isWsChar).drop defineTok.length) = true := by
    rw [h1]; exact (isPrefixOf_iff _ _).mpr ⟨_, rfl⟩
  have h2 : ((l.dropWhile isWsChar).drop defineTok.length).drop nsTok.length = sh ++ rest := by
    rw [h1]; exact List.drop_left _ _
  have htw : (sh ++ rest).takeWhile shortChar = sh := by
    rw [takeWhile_append_all _ hshall, takeWhile_head_not hrh (by decide), List.append_nil]
  have hdw : (sh ++ rest).dropWhile shortChar = rest := by
    rw [dropWhile_append_all _ hshall]
    exact dropWhile_head_not hrh (by decide)
  have hne : sh.isEmpty = false := by
    cases sh with
    | nil => exact absurd rfl hshne
    | cons a t => rfl
  unfold reMatch
  rw [if_pos hp1, if_pos hp2, h2, htw, hdw]
  rw [if_neg (by simp [hne]), if_pos hrh, hfull]

theorem enumVariantsOf_shape (env : List Char → Nat) :
    ∀ (names : List (List Char × List Char)) (vs : List (List Char × Nat)),
    enumVariantsOf env names = some vs →
    vs.length = names.length ∧ vs.map Prod.snd = names.map (fun p => env p.1) := by
  intro names
  induction names with
  | nil =>
    intro vs h
    obtain rfl : vs = [] := by simpa [enumVariantsOf] using h.symm
    simp
  | cons p t ih =>
    intro vs h
    cases hmc : enum_member_case p.2 with
    | none => rw [enumVariantsOf, hmc] at h; exact Option.noConfusion h
    | some m =>
      cases hrest : enumVariantsOf env t with
      | none => rw [enumVariantsOf, hmc, hrest] at h; exact Option.noConfusion h
      | some vs' =>
        rw [enumVariantsOf, hmc, hrest] at h
        obtain rfl : vs = (m, env p.1) :: vs' := by simpa using h.symm
        obtain ⟨hl, hm⟩ := ih vs' hrest
        simp [hl, hm]

theorem membersOf_shape :
    ∀ (names : List (List Char × List Char)) (ms : List (List Char × List Char)),
    membersOf names = some ms →
    ms.length = names.length ∧
    ms.map Prod.snd = names.map (fun p => "consts::".data ++ constTok ++ p.2) := by
  intro names
  induction names with
  | nil =>
    intro ms h
    obtain rfl : ms = [] := by simpa [membersOf] using h.symm
    simp
  | cons p t ih =>
    intro ms h
    cases hmc : enum_member_case p.2 with
    | none => rw [membersOf, hmc] at h; exact Option.noConfusion h
    | some m =>
      cases hrest : membersOf t with
      | none => rw [membersOf, hmc, hrest] at h; exact Option.noConfusion h
      | some ms' =>
        rw [membersOf, hmc, hrest] at h
        obtain rfl : ms = (m, "consts::".data ++ constTok ++ p.2) :: ms' := by simpa using h.symm
        obtain ⟨hl, hm⟩ := ih ms' hrest
        simp [hl, hm]

/-! ## Claims -/

/-- C1: for every numeric code `n`, the generated reverse lookup `from_u32`
over the emitted variants returns `some` iff `n` equals the discriminant of
some emitted variant, the returned variant's discriminant equals `n` exactly,
and any `n` not among the discriminants (zero included, when not emitted)
yields `none`. -/
theorem c1_from_u32_round_trip (env : List Char → Nat) (stdout : List Char)
    (vs : List (List Char × Nat)) (n : Nat)
    (_hvs : enumVariantsOf env (parseNames stdout) = some vs) :
    ((from_u32 vs n).isSome = true ↔ n ∈ vs.map Prod.snd) ∧
    (∀ v, from_u32 vs n = some v → v.2 = n) := by
  constructor
  · simp only [from_u32, List.find?_isSome]
    constructor
    · rintro ⟨v, hv, hp⟩
      exact List.mem_map.mpr ⟨v, hv, beq_iff_eq.mp hp⟩
    · intro hn
      obtain ⟨v, hv, hveq⟩ := List.mem_map.mp hn
      exact ⟨v, hv, beq_iff_eq.mpr hveq⟩
  · intro v hfind
    have hp : (fun w : List Char × Nat => w.2 == n) v = true :=
      List.find?_some (p := fun w : List Char × Nat => w.2 == n) (by simpa [from_u32] using hfind)
    exact beq_iff_eq.mp hp

theorem c1_witness :
    (from_u32 [("Foo".data, 1)] 1).isSome = true ∧
    (("Foo".data, 1) : List Char × Nat).2 = 1 :=
  ⟨(c1_from_u32_round_trip (fun _ => 1) "#define DRM_FORMAT_FOO 0x1".data
      [("Foo".data, 1)] 1 (by decide)).1.mpr (by decide),
   (c1_from_u32_round_trip (fun _ => 1) "#define DRM_FORMAT_FOO 0x1".data
      [("Foo".data, 1)] 1 (by decide)).2 ("Foo".data, 1) (by decide)⟩

/-- C2: for every parsed sequence of format entries, the emitted enum
variants and the emitted constant bindings are in one-to-one, order-preserving
correspondence: same length, the i-th variant's discriminant is the value of
the i-th binding's referenced macro, and the i-th member's discriminant
expression references exactly the i-th binding's name. -/
theorem c2_tables_no_drift (env : List Char → Nat)
    (names : List (List Char × List Char)) (vs : List (List Char × Nat))
    (ms : List (List Char × List Char))
    (hv : enumVariantsOf env names = some vs) (hm : membersOf names = some ms) :
    vs.length = (constBindings names).length ∧
    ms.length = (constBindings names).length ∧
    vs.map Prod.snd = (constBindings names).map (fun b => env b.2) ∧
    ms.map Prod.snd = (constBindings names).map (fun b => "consts::".data ++ b.1) := by
  obtain ⟨hvl, hv2⟩ := enumVariantsOf_shape env names vs hv
  obtain ⟨hml, hm2⟩ := membersOf_shape names ms hm
  refine ⟨?_, ?_, ?_, ?_⟩
  · simp [constBindings, hvl]
  · simp [constBindings, hml]
  · rw [hv2]; simp [constBindings, List.map_map, Function.comp]
  · rw [hm2]; simp [constBindings, List.map_map, Function.comp]

theorem c2_witness :
    ([("Foo".data, 7)] : List (List Char × Nat)).length =
      (constBindings [("DRM_FORMAT_FOO".data, "FOO".data)]).length ∧
    ([("Foo".data, "consts::DRM_FOURCC_FOO".data)] : List (List Char × List Char)).length =
      (constBindings [("DRM_FORMAT_FOO".data, "FOO".data)]).length ∧
    ([("Foo".data, 7)] : List (List Char × Nat)).map Prod.snd =
      (constBindings [("DRM_FORMAT_FOO".data, "FOO".data)]).map (fun b => (fun _ => 7) b.2) ∧
    ([("Foo".data, "consts::DRM_FOURCC_FOO".data)] : List (List Char × List Char)).map Prod.snd =
      (constBindings [("DRM_FORMAT_FOO".data, "FOO".data)]).map
        (fun b => "consts::".data ++ b.1) :=
  c2_tables_no_drift (fun _ => 7) [("DRM_FORMAT_FOO".data, "FOO".data)]
    [("Foo".data, 7)] [("Foo".data, "consts::DRM_FOURCC_FOO".data)] (by decide) (by decide)

/-- C3 counterexample: the claim as stated accepts any whitespace character
after the defined name, but on the line `#define DRM_FORMAT_A<TAB>1` (which
satisfies the claim's condition with the tab as the trailing whitespace) the
regex, whose trailing literal is a space, does not match. -/
theorem c3_counterexample :
    SpecYieldsWs "#define DRM_FORMAT_A\t1".data "DRM_FORMAT_A".data "A".data ∧
    reMatch "#define DRM_FORMAT_A\t1".data = none := by
  constructor
  · exact ⟨[], ['\t', '1'], '\t', by simp, by decide, by decide, by decide, rfl,
      by decide, by decide⟩
  · decide

/-- C3 (amended): a line yields the capture pair `(full, short)` exactly when,
after optional leading whitespace, it is a `#define` of a name consisting of
the namespace token followed by a non-empty run of uppercase letters and
digits, immediately followed by a SPACE character (not arbitrary whitespace);
`full` is the whole defined name, `short` the part after the namespace, and
the parsed output lists entries in input order (concatenation of line lists
maps to concatenation of entry lists). -/
theorem c3_amended_line_match (l full sh : List Char) :
    (reMatch l = some (full, sh) ↔ SpecYieldsSp l full sh) ∧
    (∀ ls1 ls2 : List (List Char), entriesOf (ls1 ++ ls2) = entriesOf ls1 ++ entriesOf ls2) := by
  refine ⟨⟨fun h => reMatch_forward h, fun h => reMatch_backward h⟩, ?_⟩
  intro ls1 ls2
  simp [entriesOf, List.filterMap_append]

theorem c3_witness :
    SpecYieldsSp " #define DRM_FORMAT_XR24 0x34325258".data
      "DRM_FORMAT_XR24".data "XR24".data ∧
    entriesOf (["#define DRM_FORMAT_FOO 1".data] ++ ["#define DRM_FORMAT_BAR 2".data]) =
      entriesOf ["#define DRM_FORMAT_FOO 1".data] ++ entriesOf ["#define DRM_FORMAT_BAR 2".data] :=
  ⟨(c3_amended_line_match " #define DRM_FORMAT_XR24 0x34325258".data
      "DRM_FORMAT_XR24".data "XR24".data).1.mp (by decide),
   (c3_amended_line_match [] [] []).2 ["#define DRM_FORMAT_FOO 1".data]
      ["#define DRM_FORMAT_BAR 2".data]⟩

/-- C4: a line whose raw text contains the reserved-value marker
`DRM_FORMAT_RESERVED` or the invalid marker `INVALID` produces no format
entry (the exclusion is tested before the pattern), and hence contributes
neither a constant binding nor an enum variant: the parse of any line list
containing it equals the parse with the line removed. -/
theorem c4_marker_exclusion (l : List Char)
    (h : (containsSub "DRM_FORMAT_RESERVED".data l || containsSub "INVALID".data l) = true) :
    lineEntry l = none ∧
    ∀ pre post : List (List Char), entriesOf (pre ++ l :: post) = entriesOf pre ++ entriesOf post := by
  have hnone : lineEntry l = none := by simp [lineEntry, h]
  refine ⟨hnone, ?_⟩
  intro pre post
  simp [entriesOf, List.filterMap_append, List.filterMap_cons, hnone]

theorem c4_witness :
    lineEntry "#define DRM_FORMAT_INVALID 0".data = none ∧
    (reMatch "#define DRM_FORMAT_INVALID 0".data).isSome = true ∧
    entriesOf ([] ++ "#define DRM_FORMAT_INVALID 0".data :: []) =
      entriesOf [] ++ entriesOf [] :=
  ⟨(c4_marker_exclusion "#define DRM_FORMAT_INVALID 0".data (by decide)).1,
   by decide,
   (c4_marker_exclusion "#define DRM_FORMAT_INVALID 0".data (by decide)).2 [] []⟩

/-- C5: for every non-empty short name (a run of uppercase letters and
digits), the derived variant name keeps the first character unchanged and
lower-cases all remaining characters. -/
theorem c5_case_normalization (c : Char) (cs : List Char)
    (h : isShortName (c :: cs) = true) :
    enum_member_case (c :: cs) = some (c :: cs.map Char.toLower) := by
  have hall : ∀ x ∈ c :: cs, shortChar x = true := by
    have h2 : (c :: cs).all shortChar = true := (Bool.and_eq_true _ _).mp h |>.2
    exact List.all_eq_true.mp h2
  have hc : c.toNat < 128 := shortChar_lt_128 c (hall c (by simp))
  rw [enum_member_case, if_pos hc]
  exact congrArg some (congrArg (c :: ·) (List.map_congr_left fun x _ => to_ascii_eq_toLower x))

theorem c5_witness :
    enum_member_case "ABC123".data = some ("Abc123".data) ∧
    enum_member_case "A".data = some ("A".data) ∧
    enum_member_case ('A' :: "BC123".data) = some ('A' :: "BC123".data.map Char.toLower) :=
  ⟨by decide, by decide, c5_case_normalization 'A' "BC123".data (by decide)⟩

/-- C6 counterexample: on the claim's literal three-line input, which uses the
namespace `NS_`, the generator (whose fixed namespace token is `DRM_FORMAT_`)
parses no entries at all and emits an empty variant list, not the claimed two
variants `Foo` = 0x1 and `Bar` = 0x2. -/
theorem c6_counterexample :
    parseNames scenarioClaimed = [] ∧
    enumVariantsOf (fun full => if full = "NS_FOO".data then 1
      else if full = "NS_BAR".data then 2 else 0) (parseNames scenarioClaimed) = some [] ∧
    ([] : List (List Char × Nat)) ≠ [("Foo".data, 1), ("Bar".data, 2)] := by
  refine ⟨by decide, by decide, by decide⟩

/-- C6 (amended): on a preprocessor output consisting of exactly the three
lines `#define DRM_FORMAT_FOO 0x1`, `#define DRM_FORMAT_BAR 0x2` and
`#define OTHER_THING 5`, under any macro environment in which `FOO` is 1 and
`BAR` is 2, the pipeline yields exactly the two variants `Foo` = 1 and
`Bar` = 2, the reverse lookup of 2 returns `Bar`, and the reverse lookup of 5
returns no match. -/
theorem c6_end_to_end (env : List Char → Nat)
    (hfoo : env "DRM_FORMAT_FOO".data = 1) (hbar : env "DRM_FORMAT_BAR".data = 2) :
    enumVariantsOf env (parseNames scenarioAmended) = some [("Foo".data, 1), ("Bar".data, 2)] ∧
    from_u32 [("Foo".data, 1), ("Bar".data, 2)] 2 = some ("Bar".data, 2) ∧
    from_u32 [("Foo".data, 1), ("Bar".data, 2)] 5 = none := by
  refine ⟨?_, by decide, by decide⟩
  have hp : parseNames scenarioAmended =
      [("DRM_FORMAT_FOO".data, "FOO".data), ("DRM_FORMAT_BAR".data, "BAR".data)] := by decide
  have hfc : enum_member_case "FOO".data = some "Foo".data := by decide
  have hbc : enum_member_case "BAR".data = some "Bar".data := by decide
  rw [hp]
  rw [enumVariantsOf]
  rw [show ("DRM_FORMAT_FOO".data, "FOO".data).2 = "FOO".data from rfl, hfc]
  rw [enumVariantsOf]
  rw [show ("DRM_FORMAT_BAR".data, "BAR".data).2 = "BAR".data from rfl, hbc]
  rw [show enumVariantsOf env [] = some [] from rfl]
  simp [hfoo, hbar]

theorem c6_witness :
    enumVariantsOf scenarioEnv (parseNames scenarioAmended) =
      some [("Foo".data, 1), ("Bar".data, 2)] ∧
    from_u32 [("Foo".data, 1), ("Bar".data, 2)] 2 = some ("Bar".data, 2) ∧
    from_u32 [("Foo".data, 1), ("Bar".data, 2)] 5 = none :=
  c6_end_to_end scenarioEnv (by decide) (by decide)

/-- C7: for every parsed entry list, exactly one constant binding is emitted
per entry, in parse order: the i-th binding's name is the fixed constant
token followed by the i-th short name and its value is a reference to the
i-th original full macro name; the emitted wrapper declaration types it as
`uint32_t` with the macro name (not a numeric literal) on the right-hand
side. -/
theorem c7_constant_bindings (names : List (List Char × List Char)) (i : Nat) :
    (constBindings names).length = names.length ∧
    (constBindings names)[i]? = Option.map (fun p => (constTok ++ p.2, p.1)) names[i]? ∧
    (names.map wrapperDecl)[i]? =
      Option.map (fun p => "uint32_t ".data ++ constTok ++ p.2 ++ " = ".data ++ p.1 ++ ";\n\n".data)
        names[i]? ∧
    wrapperText names = "#include <stdint.h>\n".data ++ "#include <drm/drm_fourcc.h>\n".data ++
      (names.map wrapperDecl).flatten := by
  refine ⟨by simp [constBindings], ?_, ?_, rfl⟩
  · rw [constBindings, List.getElem?_map]
  · rw [List.getElem?_map]
    rfl

/-- C8: the pipeline is deterministic — two runs on the same captured
preprocessor output produce the same parsed entry sequence and byte-identical
artifacts.  In this embedding the pipeline is a pure function of the captured
text, faithfully to the source, which iterates plain lists and uses no
nondeterministic container or external state between capture and emission. -/
theorem c8_determinism (r1 r2 : ProcOutput) (h : r1 = r2) :
    parseNames r1.stdout = parseNames r2.stdout ∧ generate r1 = generate r2 := by
  subst h
  exact ⟨rfl, rfl⟩

theorem c8_witness :
    parseNames (ProcOutput.mk true "#define DRM_FORMAT_C8 1 ".data).stdout =
      parseNames (ProcOutput.mk true "#define DRM_FORMAT_C8 1 ".data).stdout ∧
    generate (ProcOutput.mk true "#define DRM_FORMAT_C8 1 ".data) =
      generate (ProcOutput.mk true "#define DRM_FORMAT_C8 1 ".data) :=
  c8_determinism (ProcOutput.mk true "#define DRM_FORMAT_C8 1 ".data)
    (ProcOutput.mk true "#define DRM_FORMAT_C8 1 ".data) rfl

/-- C9: when the preprocessor subprocess terminates with non-success status,
generation aborts immediately with the preprocess failure carrying the
captured output for diagnostics (the source panics with a message containing
the captured stdout), nothing is retried, and no artifacts are produced. -/
theorem c9_preprocess_failure (res : ProcOutput) (h : res.success = false) :
    generate res = Except.error (GenError.preprocessError res.stdout) ∧
    ∀ a : Artifacts, generate res ≠ Except.ok a := by
  have hg : generate res = Except.error (GenError.preprocessError res.stdout) := by
    rw [generate, if_neg (by simp [h])]
  exact ⟨hg, fun a hc => by rw [hg] at hc; exact Except.noConfusion hc⟩

theorem c9_witness :
    generate (ProcOutput.mk false "fatal error: drm/drm_fourcc.h file not found".data) =
      Except.error (GenError.preprocessError
        "fatal error: drm/drm_fourcc.h file not found".data) ∧
    generate (ProcOutput.mk false "fatal error: drm/drm_fourcc.h file not found".data) ≠
      Except.ok (Artifacts.mk [] []) :=
  ⟨(c9_preprocess_failure (ProcOutput.mk false
      "fatal error: drm/drm_fourcc.h file not found".data) rfl).1,
   (c9_preprocess_failure (ProcOutput.mk false
      "fatal error: drm/drm_fourcc.h file not found".data) rfl).2 (Artifacts.mk [] [])⟩

/-- C10: the case-normalization function is partial — it returns no result
(the source panics at the byte-1 split) on the empty string and on any string
whose first character occupies more than one UTF-8 byte (code point at least
128) — but on every short name captured by the definition pattern (which is a
non-empty run of uppercase letters and digits) it is total. -/
theorem c10_case_partiality :
    enum_member_case [] = none ∧
    (∀ c cs, 128 ≤ c.toNat → enum_member_case (c :: cs) = none) ∧
    (∀ l full sh, reMatch l = some (full, sh) →
      isShortName sh = true ∧ (enum_member_case sh).isSome = true) := by
  refine ⟨rfl, ?_, ?_⟩
  · intro c cs hc
    rw [enum_member_case, if_neg (by omega)]
  · intro l full sh h
    obtain ⟨ws, rest, hws, hl, hshne, hshall, hrh, hfull⟩ := reMatch_forward h
    have hshort : isShortName sh = true := by
      rw [isShortName, Bool.and_eq_true]
      refine ⟨?_, List.all_eq_true.mpr hshall⟩
      cases sh with
      | nil => exact absurd rfl hshne
      | cons a t => rfl
    refine ⟨hshort, ?_⟩
    cases sh with
    | nil => exact absurd rfl hshne
    | cons a t =>
      have ha : a.toNat < 128 := shortChar_lt_128 a (hshall a (by simp))
      rw [enum_member_case, if_pos ha]
      rfl

theorem c10_witness :
    enum_member_case [Char.ofNat 200] = none ∧
    isShortName "C8".data = true ∧
    (enum_member_case "C8".data).isSome = true := by
  refine ⟨c10_case_partiality.2.1 (Char.ofNat 200) [] (by decide), ?_, ?_⟩
  · exact (c10_case_partiality.2.2 "#define DRM_FORMAT_C8 1".data
      "DRM_FORMAT_C8".data "C8".data (by decide)).1
  · exact (c10_case_partiality.2.2 "#define DRM_FORMAT_C8 1".data
      "DRM_FORMAT_C8".data "C8".data (by decide)).2

end DrmFourcc
